import Mathlib

/-!
Verification of the tendermint/iavl single-key proof layer and the
importer / versioned-tree behaviour described in the specification.

Byte slices are modelled as `List Nat`; a possibly-nil Go slice is
`Option (List Nat)` (`none` = nil slice, `some l` = non-nil slice with
contents `l`).  Machine integers are `Int`/`Nat`.  Fallible Go functions
return `Except IavlError _`.
-/

namespace Iavl

/-- Contents of a byte slice. -/
abbrev Bytes := List Nat

/-- A possibly-nil Go byte slice: `none` models the nil slice. -/
abbrev BytesQ := Option Bytes

/-- The contents of a possibly-nil slice (Go treats nil as empty for reads). -/
def toB (q : BytesQ) : Bytes := q.getD []

/-- Go `bytes.Equal`: compares contents only, so nil equals the empty slice. -/
def bytesEqual (a b : BytesQ) : Bool := toB a == toB b

/-- Go `bytes.Compare` on contents: lexicographic, a proper prefix is smaller. -/
def bytesCompare : Bytes → Bytes → Ordering
  | [], [] => .eq
  | [], _ :: _ => .lt
  | _ :: _, [] => .gt
  | a :: as, b :: bs =>
    if a < b then .lt else if b < a then .gt else bytesCompare as bs

/-- Error kinds surfaced at the public boundary (spec section 7). -/
inductive IavlError where
  | invalidRoot
  | invalidInputs
  | invalidProof
  | noImport
  | versionNotFound
  | other (msg : String)
deriving DecidableEq, Repr

/-! ## Varint / length-prefixed encoding (spec section 4.1 / 6.2)

Unsigned LEB128 of the ZigZag-encoded signed value; `lenPrefixed`
prepends the unsigned varint length. -/

/-- Unsigned LEB128 encoding of a natural number. -/
def varintEnc (n : Nat) : List Nat :=
  if h : n < 128 then [n]
  else (n % 128 + 128) :: varintEnc (n / 128)
termination_by n
decreasing_by
  exact Nat.div_lt_self (by omega) (by omega)

/-- Unsigned LEB128 decoding; returns the value and the remaining bytes. -/
def varintDec : List Nat → Option (Nat × List Nat)
  | [] => none
  | b :: rest =>
    if b < 128 then some (b, rest)
    else
      match varintDec rest with
      | none => none
      | some (n, r) => some ((b - 128) + 128 * n, r)

/-- ZigZag encoding of a signed integer. -/
def zigzag (i : Int) : Nat :=
  (if 0 ≤ i then 2 * i else -2 * i - 1).toNat

/-- ZigZag decoding. -/
def unzigzag (n : Nat) : Int :=
  if n % 2 = 0 then ((n / 2 : Nat) : Int) else -((n / 2 : Nat) : Int) - 1

/-- Signed varint: LEB128 of the ZigZag value (spec section 4.1). -/
def intEnc (i : Int) : List Nat := varintEnc (zigzag i)

/-- Signed varint decoding. -/
def intDec (d : List Nat) : Option (Int × List Nat) :=
  match varintDec d with
  | none => none
  | some (n, r) => some (unzigzag n, r)

/-- `lenPrefixed(x)`: unsigned varint length of `x` followed by `x`. -/
def lenPrefixed (b : Bytes) : List Nat := varintEnc b.length ++ b

/-- Decoder matching `lenPrefixed`. -/
def bytesDec (d : List Nat) : Option (Bytes × List Nat) :=
  match varintDec d with
  | none => none
  | some (n, r) => if n ≤ r.length then some (r.take n, r.drop n) else none

theorem varintDec_enc (n : Nat) :
    ∀ rest : List Nat, varintDec (varintEnc n ++ rest) = some (n, rest) := by
  induction n using Nat.strong_induction_on with
  | _ n ih =>
    intro rest
    rw [varintEnc]
    by_cases h : n < 128
    · simp [h, varintDec]
    · have hd : n / 128 < n := Nat.div_lt_self (by omega) (by omega)
      simp only [h, dite_false, List.cons_append, varintDec]
      have hb : ¬ (n % 128 + 128 < 128) := by omega
      simp only [hb, if_false, ih (n / 128) hd rest]
      have hmod := Nat.mod_add_div n 128
      have heq : n % 128 + 128 - 128 + 128 * (n / 128) = n := by omega
      rw [heq]

theorem unzigzag_zigzag (i : Int) : unzigzag (zigzag i) = i := by
  unfold zigzag unzigzag
  by_cases h : 0 ≤ i
  · simp only [h, if_true]
    have h2 : (2 * i).toNat = 2 * i.toNat := by omega
    have h3 : (2 * i.toNat) % 2 = 0 := by omega
    simp only [h2, h3, if_true]
    omega
  · simp only [h, if_false]
    have h2 : (-2 * i - 1).toNat = 2 * (-i).toNat - 1 := by omega
    have hpos : 1 ≤ (-i).toNat := by omega
    have h3 : (2 * (-i).toNat - 1) % 2 = 1 := by omega
    simp only [h2, h3]
    norm_num
    omega

theorem intDec_enc (i : Int) (rest : List Nat) :
    intDec (intEnc i ++ rest) = some (i, rest) := by
  unfold intDec intEnc
  rw [varintDec_enc]
  simp only [unzigzag_zigzag]

theorem take_len_append (l r : Bytes) : (l ++ r).take l.length = l := by
  induction l with
  | nil => simp
  | cons a as ih => simp [ih]

theorem drop_len_append (l r : Bytes) : (l ++ r).drop l.length = r := by
  induction l with
  | nil => simp
  | cons a as ih => simp [ih]

theorem bytesDec_enc (b : Bytes) (rest : List Nat) :
    bytesDec (lenPrefixed b ++ rest) = some (b, rest) := by
  unfold bytesDec lenPrefixed
  rw [List.append_assoc, varintDec_enc]
  have hlen : b.length ≤ (b ++ rest).length := by simp
  simp only [hlen, if_true, take_len_append, drop_len_append]

/-! ## Generic framing combinators (spec section 6.2)

The historical go-wire framing is out of scope for the spec ("an
implementer may choose any canonical byte encoding"); these combinators
realise a self-consistent count-prefixed framing used by the proof
serializer below. -/

/-- Count-prefixed list encoding. -/
def listEnc (enc : α → List Nat) (l : List α) : List Nat :=
  varintEnc l.length ++ l.foldr (fun a acc => enc a ++ acc) []

/-- Decode exactly `n` consecutive elements. -/
def repDec (dec : List Nat → Option (α × List Nat)) :
    Nat → List Nat → Option (List α × List Nat)
  | 0, d => some ([], d)
  | n + 1, d =>
    match dec d with
    | none => none
    | some (a, r) =>
      match repDec dec n r with
      | none => none
      | some (as, r2) => some (a :: as, r2)

/-- Decoder matching `listEnc`. -/
def listDec (dec : List Nat → Option (α × List Nat)) (d : List Nat) :
    Option (List α × List Nat) :=
  match varintDec d with
  | none => none
  | some (n, r) => repDec dec n r

/-- Tag-byte encoding of an optional value: `0` for none, `1` then payload. -/
def optionEnc (enc : α → List Nat) : Option α → List Nat
  | none => [0]
  | some a => 1 :: enc a

/-- Decoder matching `optionEnc`. -/
def optionDec (dec : List Nat → Option (α × List Nat)) :
    List Nat → Option (Option α × List Nat)
  | [] => none
  | 0 :: r => some (none, r)
  | 1 :: r =>
    match dec r with
    | none => none
    | some (a, r2) => some (some a, r2)
  | _ :: _ => none

theorem repDec_enc (dec : List Nat → Option (α × List Nat))
    (enc : α → List Nat)
    (hrt : ∀ a rest, dec (enc a ++ rest) = some (a, rest)) :
    ∀ (l : List α) (rest : List Nat),
      repDec dec l.length (l.foldr (fun a acc => enc a ++ acc) [] ++ rest) =
        some (l, rest) := by
  intro l
  induction l with
  | nil => intro rest; simp [repDec]
  | cons a as ih =>
    intro rest
    simp only [List.length_cons, List.foldr_cons, List.append_assoc, repDec, hrt]
    rw [ih rest]

theorem listDec_enc (dec : List Nat → Option (α × List Nat))
    (enc : α → List Nat)
    (hrt : ∀ a rest, dec (enc a ++ rest) = some (a, rest))
    (l : List α) (rest : List Nat) :
    listDec dec (listEnc enc l ++ rest) = some (l, rest) := by
  unfold listDec listEnc
  rw [List.append_assoc, varintDec_enc]
  exact repDec_enc dec enc hrt l rest

theorem optionDec_enc (dec : List Nat → Option (α × List Nat))
    (enc : α → List Nat)
    (hrt : ∀ a rest, dec (enc a ++ rest) = some (a, rest))
    (o : Option α) (rest : List Nat) :
    optionDec dec (optionEnc enc o ++ rest) = some (o, rest) := by
  cases o with
  | none => simp [optionEnc, optionDec]
  | some a => simp [optionEnc, optionDec, hrt]

/-! ## Hashing (spec section 4.1)

Modelled from the spec: SHA-256 is an external cryptographic primitive
(Go `crypto/sha256`, not part of this repository); it is modelled by a
deterministic executable digest function.  Every claim below is invariant
in the choice of this function — proofs compare digests computed by the
same function on both sides. -/

/-- Modelled from the spec: stand-in digest for SHA-256 (an external
primitive; only determinism is relied upon). -/
def sha256 (b : Bytes) : Bytes :=
  [b.foldl (fun a c => (a * 131 + c + 7) % 4294967296) 5381,
   b.foldl (fun a c => (a * 31 + c + 3) % 4294967296) 52711,
   b.length]

/-! ## Proof path structures (proof_path.go is not under src/;
modelled from spec sections 4.5 and 6.2) -/

/-- An inner-node frame of a proof path: `{height, size, version, left,
right}`; exactly one of `left`/`right` is empty (the side on the path has
its hash elided). -/
structure ProofInnerNode where
  height : Int
  size : Int
  version : Int
  left : Bytes
  right : Bytes
deriving DecidableEq, Repr

/-- A proof leaf carrying the key, the raw value bytes and the version. -/
structure ProofLeafNode where
  keyBytes : Bytes
  valueBytes : Bytes
  version : Int
deriving DecidableEq, Repr

/-- The inner-node frames from the root toward the leaf. -/
structure PathToKey where
  innerNodes : List ProofInnerNode
deriving DecidableEq, Repr

/-- A path together with the leaf it leads to (absence proofs). -/
structure PathWithNode where
  path : PathToKey
  node : ProofLeafNode
deriving DecidableEq, Repr

/-- Modelled from the spec (4.1): leaf hash preimage
`varint(0) ++ varint(1) ++ varint(version) ++ lenPrefixed(key) ++
lenPrefixed(SHA-256(value))`. -/
def ProofLeafNode.hashOf (leaf : ProofLeafNode) : Bytes :=
  sha256 (intEnc 0 ++ intEnc 1 ++ intEnc leaf.version ++
    lenPrefixed leaf.keyBytes ++ lenPrefixed (sha256 leaf.valueBytes))

/-- Modelled from the spec (4.5): recompute an inner frame's hash,
filling the elided side with the recomputed subtree hash `child`. -/
def ProofInnerNode.hashOf (inn : ProofInnerNode) (child : Bytes) : Bytes :=
  if inn.left = [] then
    sha256 (intEnc inn.height ++ intEnc inn.size ++ intEnc inn.version ++
      lenPrefixed child ++ lenPrefixed inn.right)
  else
    sha256 (intEnc inn.height ++ intEnc inn.size ++ intEnc inn.version ++
      lenPrefixed inn.left ++ lenPrefixed child)

/-- Modelled from the spec (4.5): fold the frames from the leaf back to
the root (the list runs root-to-leaf, so the fold is right-to-left). -/
def PathToKey.computeRoot (p : PathToKey) (leafHash : Bytes) : Bytes :=
  p.innerNodes.foldr (fun inn acc => inn.hashOf acc) leafHash

/-- Modelled from the spec (4.5): `PathToKey.verify` recomputes the root
from the leaf and compares it with the expected root. -/
def PathToKey.verify (p : PathToKey) (leaf : ProofLeafNode) (root : Bytes) :
    Except IavlError Unit :=
  if p.computeRoot leaf.hashOf == root then .ok () else .error .invalidProof

/-- Modelled from the spec (4.5): a pathWithNode verifies against a root
when its path applied to its leaf reconstructs the root. -/
def PathWithNode.verify (pwn : PathWithNode) (root : Bytes) :
    Except IavlError Unit :=
  pwn.path.verify pwn.node root

/-- Modelled from the spec (4.5): a path is leftmost when every frame
elides the left side (no subtree hangs to its left). -/
def PathToKey.isLeftmost (p : PathToKey) : Bool :=
  p.innerNodes.all (fun n => n.left == [])

/-- Modelled from the spec (4.5): a path is rightmost when every frame
elides the right side. -/
def PathToKey.isRightmost (p : PathToKey) : Bool :=
  p.innerNodes.all (fun n => n.right == [])

/-- Drop the longest common prefix of two frame lists. -/
def stripCommonFront : List ProofInnerNode → List ProofInnerNode →
    List ProofInnerNode × List ProofInnerNode
  | a :: as, b :: bs => if a = b then stripCommonFront as bs else (a :: as, b :: bs)
  | as, bs => (as, bs)

/-- Modelled from the spec (4.5): two paths are adjacent when, after the
common prefix, the left path is rightmost below the divergence point and
the right path is leftmost below it (no inner node implies a missing leaf
between them). -/
def PathToKey.isLeftAdjacentTo (p1 p2 : PathToKey) : Bool :=
  match stripCommonFront p1.innerNodes p2.innerNodes with
  | (_ :: ltail, _ :: rtail) =>
    (PathToKey.mk ltail).isRightmost && (PathToKey.mk rtail).isLeftmost
  | _ => false

/-! ## Single-key proofs (src/proof_key.go) -/

/-- Serialization discriminator for existence proofs (src/proof_key.go). -/
def keyExistsMagicNumber : Nat := 0x50

/-- Serialization discriminator for absence proofs (src/proof_key.go). -/
def keyAbsentMagicNumber : Nat := 0x51

/-- `KeyExistsProof` (src/proof_key.go): root hash, version and the path
to the proven leaf. -/
structure KeyExistsProof where
  rootHash : Bytes
  version : Int
  path : PathToKey
deriving DecidableEq, Repr

/-- `KeyAbsentProof` (src/proof_key.go): root hash plus the optional
left/right adjacent-leaf entries. -/
structure KeyAbsentProof where
  rootHash : Bytes
  left : Option PathWithNode
  right : Option PathWithNode
deriving DecidableEq, Repr

/-- `KeyExistsProof.Verify` (src/proof_key.go lines 44-52): root check,
nil-input check, then delegation to `PathToKey.verify` on the leaf built
from the inputs and the proof's version. -/
def KeyExistsProof.Verify (proof : KeyExistsProof) (key value root : BytesQ) :
    Except IavlError Unit :=
  if ¬ bytesEqual (some proof.rootHash) root then .error .invalidRoot
  else if key = none ∨ value = none then .error .invalidInputs
  else proof.path.verify ⟨toB key, toB value, proof.version⟩ (toB root)

/-- Modelled from the spec (4.5, absence proof clauses (a) and (b)):
`verifyPaths` (proof.go, not under src/) checks each present side's path
against the root and that the queried key lies strictly between the two
leaf keys (or beyond the present boundary). -/
def verifyPaths (left right : Option PathWithNode)
    (startKey endKey root : Bytes) : Except IavlError Unit := do
  match left with
  | none => pure ()
  | some l =>
    l.verify root
    if bytesCompare l.node.keyBytes startKey = .lt then pure ()
    else throw .invalidProof
  match right with
  | none => pure ()
  | some r =>
    r.verify root
    if bytesCompare endKey r.node.keyBytes = .lt then pure ()
    else throw .invalidProof

/-- Modelled from the spec (4.5, absence proof clause (c)):
`verifyKeyAbsence` (proof.go, not under src/) checks the adjacency of the
two leaves: only-left requires the left path to be rightmost, only-right
requires the right path to be leftmost, both present requires left
adjacency; both absent is invalid. -/
def verifyKeyAbsence (left right : Option PathWithNode) :
    Except IavlError Unit :=
  match left, right with
  | none, none => .error .invalidProof
  | some l, none =>
    if l.path.isRightmost then .ok () else .error .invalidProof
  | none, some r =>
    if r.path.isLeftmost then .ok () else .error .invalidProof
  | some l, some r =>
    if l.path.isLeftAdjacentTo r.path then .ok () else .error .invalidProof

/-- `KeyAbsentProof.Verify` (src/proof_key.go lines 83-99): root check,
nil-input check, rejection when both sides are absent, then path checks
and adjacency. -/
def KeyAbsentProof.Verify (proof : KeyAbsentProof) (key value root : BytesQ) :
    Except IavlError Unit :=
  if ¬ bytesEqual (some proof.rootHash) root then .error .invalidRoot
  else if key = none ∨ value ≠ none then .error .invalidInputs
  else if proof.left = none ∧ proof.right = none then .error .invalidProof
  else
    match verifyPaths proof.left proof.right (toB key) (toB key) (toB root) with
    | .error e => .error e
    | .ok _ => verifyKeyAbsence proof.left proof.right

/-! ## Proof serialization (src/proof_key.go lines 55-57, 102-104,
114-127)

The payload framing stands in for go-wire (an external dependency, out of
scope per spec section 1; section 6.2 allows any self-consistent
canonical framing).  The discriminator byte and the dispatch are from
src/proof_key.go. -/

/-- Frame encoding of an inner node. -/
def ProofInnerNode.enc (n : ProofInnerNode) : List Nat :=
  intEnc n.height ++ intEnc n.size ++ intEnc n.version ++
    lenPrefixed n.left ++ lenPrefixed n.right

/-- Frame decoding of an inner node. -/
def ProofInnerNode.dec (d : List Nat) : Option (ProofInnerNode × List Nat) :=
  match intDec d with
  | none => none
  | some (h, r1) =>
    match intDec r1 with
    | none => none
    | some (s, r2) =>
      match intDec r2 with
      | none => none
      | some (v, r3) =>
        match bytesDec r3 with
        | none => none
        | some (l, r4) =>
          match bytesDec r4 with
          | none => none
          | some (rg, r5) => some (⟨h, s, v, l, rg⟩, r5)

/-- Frame encoding of a proof leaf. -/
def ProofLeafNode.enc (n : ProofLeafNode) : List Nat :=
  lenPrefixed n.keyBytes ++ lenPrefixed n.valueBytes ++ intEnc n.version

/-- Frame decoding of a proof leaf. -/
def ProofLeafNode.dec (d : List Nat) : Option (ProofLeafNode × List Nat) :=
  match bytesDec d with
  | none => none
  | some (k, r1) =>
    match bytesDec r1 with
    | none => none
    | some (v, r2) =>
      match intDec r2 with
      | none => none
      | some (ver, r3) => some (⟨k, v, ver⟩, r3)

/-- Encoding of a path: count-prefixed inner frames. -/
def PathToKey.enc (p : PathToKey) : List Nat :=
  listEnc ProofInnerNode.enc p.innerNodes

/-- Decoding of a path. -/
def PathToKey.dec (d : List Nat) : Option (PathToKey × List Nat) :=
  match listDec ProofInnerNode.dec d with
  | none => none
  | some (l, r) => some (⟨l⟩, r)

/-- Encoding of a path-with-leaf entry. -/
def PathWithNode.enc (p : PathWithNode) : List Nat :=
  p.path.enc ++ p.node.enc

/-- Decoding of a path-with-leaf entry. -/
def PathWithNode.dec (d : List Nat) : Option (PathWithNode × List Nat) :=
  match PathToKey.dec d with
  | none => none
  | some (p, r1) =>
    match ProofLeafNode.dec r1 with
    | none => none
    | some (n, r2) => some (⟨p, n⟩, r2)

/-- Payload encoding of a `KeyExistsProof`: `rootHash ++ version ++ path`
(spec section 6.2). -/
def KeyExistsProof.encPayload (p : KeyExistsProof) : List Nat :=
  lenPrefixed p.rootHash ++ intEnc p.version ++ p.path.enc

/-- Payload decoding of a `KeyExistsProof`. -/
def KeyExistsProof.decPayload (d : List Nat) :
    Option (KeyExistsProof × List Nat) :=
  match bytesDec d with
  | none => none
  | some (rh, r1) =>
    match intDec r1 with
    | none => none
    | some (v, r2) =>
      match PathToKey.dec r2 with
      | none => none
      | some (p, r3) => some (⟨rh, v, p⟩, r3)

/-- Payload encoding of a `KeyAbsentProof`:
`rootHash ++ leftEntry? ++ rightEntry?` (spec section 6.2). -/
def KeyAbsentProof.encPayload (p : KeyAbsentProof) : List Nat :=
  lenPrefixed p.rootHash ++ optionEnc PathWithNode.enc p.left ++
    optionEnc PathWithNode.enc p.right

/-- Payload decoding of a `KeyAbsentProof`. -/
def KeyAbsentProof.decPayload (d : List Nat) :
    Option (KeyAbsentProof × List Nat) :=
  match bytesDec d with
  | none => none
  | some (rh, r1) =>
    match optionDec PathWithNode.dec r1 with
    | none => none
    | some (l, r2) =>
      match optionDec PathWithNode.dec r2 with
      | none => none
      | some (rg, r3) => some (⟨rh, l, rg⟩, r3)

/-- `KeyExistsProof.Bytes` (src/proof_key.go lines 55-57): the
discriminator byte `0x50` followed by the serialized payload. -/
def KeyExistsProof.Bytes (p : KeyExistsProof) : List Nat :=
  keyExistsMagicNumber :: p.encPayload

/-- `KeyAbsentProof.Bytes` (src/proof_key.go lines 102-104): the
discriminator byte `0x51` followed by the serialized payload. -/
def KeyAbsentProof.Bytes (p : KeyAbsentProof) : List Nat :=
  keyAbsentMagicNumber :: p.encPayload

/-- `readKeyExistsProof` (src/proof_key.go): deserialize a full
existence-proof payload; leftover bytes are a deserialization error. -/
def readKeyExistsProof (d : List Nat) : Except IavlError KeyExistsProof :=
  match KeyExistsProof.decPayload d with
  | some (p, []) => .ok p
  | some (_, _ :: _) => .error (.other "bytes left over")
  | none => .error (.other "malformed existence proof")

/-- `readKeyAbsentProof` (src/proof_key.go): deserialize a full
absence-proof payload; leftover bytes are a deserialization error. -/
def readKeyAbsentProof (d : List Nat) : Except IavlError KeyAbsentProof :=
  match KeyAbsentProof.decPayload d with
  | some (p, []) => .ok p
  | some (_, _ :: _) => .error (.other "bytes left over")
  | none => .error (.other "malformed absence proof")

/-- The `KeyProof` interface value returned by `ReadKeyProof`: either an
existence proof or an absence proof. -/
inductive KeyProofVal where
  | existsP (p : KeyExistsProof)
  | absentP (p : KeyAbsentProof)
deriving DecidableEq, Repr

/-- `ReadKeyProof` (src/proof_key.go lines 114-127): reject empty input,
dispatch on the discriminator byte, reject unrecognized discriminators. -/
def ReadKeyProof (d : List Nat) : Except IavlError KeyProofVal :=
  match d with
  | [] => .error (.other "proof bytes are empty")
  | b :: val =>
    if b = keyExistsMagicNumber then
      match readKeyExistsProof val with
      | .ok p => .ok (.existsP p)
      | .error e => .error e
    else if b = keyAbsentMagicNumber then
      match readKeyAbsentProof val with
      | .ok p => .ok (.absentP p)
      | .error e => .error e
    else .error (.other "unrecognized proof")

/-! ## Round-trip lemmas for the proof codecs -/

theorem innerNode_dec_enc (n : ProofInnerNode) (rest : List Nat) :
    ProofInnerNode.dec (n.enc ++ rest) = some (n, rest) := by
  unfold ProofInnerNode.enc ProofInnerNode.dec
  simp only [List.append_assoc, intDec_enc, bytesDec_enc]

theorem leafNode_dec_enc (n : ProofLeafNode) (rest : List Nat) :
    ProofLeafNode.dec (n.enc ++ rest) = some (n, rest) := by
  unfold ProofLeafNode.enc ProofLeafNode.dec
  simp only [List.append_assoc, intDec_enc, bytesDec_enc]

theorem pathToKey_dec_enc (p : PathToKey) (rest : List Nat) :
    PathToKey.dec (p.enc ++ rest) = some (p, rest) := by
  unfold PathToKey.enc PathToKey.dec
  rw [listDec_enc ProofInnerNode.dec ProofInnerNode.enc innerNode_dec_enc]

theorem pathWithNode_dec_enc (p : PathWithNode) (rest : List Nat) :
    PathWithNode.dec (p.enc ++ rest) = some (p, rest) := by
  unfold PathWithNode.enc PathWithNode.dec
  rw [List.append_assoc, pathToKey_dec_enc]
  simp only [leafNode_dec_enc]

theorem existsPayload_dec_enc (p : KeyExistsProof) (rest : List Nat) :
    KeyExistsProof.decPayload (p.encPayload ++ rest) = some (p, rest) := by
  unfold KeyExistsProof.encPayload KeyExistsProof.decPayload
  simp only [List.append_assoc, bytesDec_enc, intDec_enc, pathToKey_dec_enc]

theorem absentPayload_dec_enc (p : KeyAbsentProof) (rest : List Nat) :
    KeyAbsentProof.decPayload (p.encPayload ++ rest) = some (p, rest) := by
  unfold KeyAbsentProof.encPayload KeyAbsentProof.decPayload
  simp only [List.append_assoc, bytesDec_enc,
    optionDec_enc PathWithNode.dec PathWithNode.enc pathWithNode_dec_enc]

theorem readKeyExistsProof_enc (p : KeyExistsProof) :
    readKeyExistsProof p.encPayload = .ok p := by
  unfold readKeyExistsProof
  have h := existsPayload_dec_enc p []
  rw [List.append_nil] at h
  rw [h]

theorem readKeyAbsentProof_enc (p : KeyAbsentProof) :
    readKeyAbsentProof p.encPayload = .ok p := by
  unfold readKeyAbsentProof
  have h := absentPayload_dec_enc p []
  rw [List.append_nil] at h
  rw [h]

/-! ## Importer (spec section 4.6)

The importer and mutable-tree implementation files are not under src/
(only their tests are); the definitions in this section are modelled from
the spec, shaped to the behaviour the tests exercise. -/

/-- Modelled from the spec: `ExportNode{key, value, version, height}`
records streamed between exporter and importer (section 4.6). -/
structure ExportNode where
  key : BytesQ
  value : BytesQ
  version : Int
  height : Int
deriving DecidableEq, Repr

/-- Modelled from the spec: the state of a mutable tree as seen by the
importer: the latest version present in the backing store (`0` = none)
and the key/value leaves of the current (possibly staged) tree. -/
structure MTree where
  dbLatestVersion : Int
  leaves : List (Bytes × Bytes)
deriving DecidableEq, Repr

/-- A freshly created mutable tree over an empty store. -/
def MTree.empty : MTree := ⟨0, []⟩

/-- Modelled from the spec: `Has` reports whether a key is present in the
tree. -/
def MTree.Has (t : MTree) (k : Bytes) : Bool :=
  t.leaves.any (fun p => p.1 == k)

/-- Modelled from the spec: a subtree assembled by the importer's stack:
its height and the leaves it contains. -/
structure StackNode where
  height : Int
  leaves : List (Bytes × Bytes)
deriving DecidableEq, Repr

/-- Modelled from the spec: importer state — the target tree, the version
being imported, whether the importer was closed, and the postorder node
stack. -/
structure Importer where
  tree : MTree
  version : Int
  closed : Bool
  stack : List StackNode
deriving DecidableEq, Repr

/-- Modelled from the spec (4.6): `MutableTree.Import` opens an importer
on an empty target store at a non-negative version; it fails when the
version is negative, when the backing store already holds a version
(saved through this tree or pre-existing), or when staged edits exist. -/
def MTree.Import (t : MTree) (version : Int) : Except IavlError Importer :=
  if version < 0 then .error (.other "imported version cannot be negative")
  else if t.dbLatestVersion > 0 then .error (.other "database not empty")
  else if t.leaves ≠ [] then .error (.other "tree must be empty")
  else .ok ⟨t, version, false, []⟩

/-- Modelled from the spec (4.6): `Importer.Add` consumes one postorder
`ExportNode`.  A closed importer fails with `NoImport`; a nil node, nil
key, version outside `(0, importerVersion]`, negative height, nil leaf
value, or an inner node violating `height = 1 + max(child heights)` is an
error; a valid leaf is pushed, a valid inner node pops and links its two
children. -/
def Importer.Add (i : Importer) (node : Option ExportNode) :
    Except IavlError Importer :=
  if i.closed then .error .noImport
  else
    match node with
    | none => .error (.other "node cannot be nil")
    | some n =>
      if n.version > i.version then
        .error (.other "node version greater than import version")
      else if n.key = none then .error (.other "node key cannot be nil")
      else if n.version ≤ 0 then .error (.other "node version must be positive")
      else if n.height < 0 then .error (.other "node height cannot be negative")
      else if n.height = 0 then
        if n.value = none then .error (.other "leaf value cannot be nil")
        else .ok { i with stack := ⟨0, [(toB n.key, toB n.value)]⟩ :: i.stack }
      else
        match i.stack with
        | right :: left :: rest =>
          if n.height = 1 + max left.height right.height then
            .ok { i with
              stack := ⟨n.height, left.leaves ++ right.leaves⟩ :: rest }
          else .error (.other "node height does not match children")
        | _ => .error (.other "not enough children on stack")

/-- Modelled from the spec (4.6, 5): `Importer.Close` marks the importer
closed; buffered writes are discarded and the target tree is untouched. -/
def Importer.Close (i : Importer) : Importer :=
  { i with closed := true }

/-- Modelled from the spec (4.6): `Importer.Commit` fails with `NoImport`
on a closed importer; otherwise it writes the buffered nodes and the root
entry atomically, producing the updated target tree (an empty stack
commits an empty version; more than one stack entry is malformed
input). -/
def Importer.Commit (i : Importer) : Except IavlError MTree :=
  if i.closed then .error .noImport
  else
    match i.stack with
    | [] => .ok ⟨i.version, []⟩
    | [root] => .ok ⟨i.version, root.leaves⟩
    | _ => .error (.other "invalid node structure")

/-! ## Versioned tree (spec sections 3, 4.4)

mutable_tree.go is not under src/ (only its tests are); this versioned
tree is modelled from the spec. -/

/-- Insert or replace a key in an association list of leaves. -/
def setKV (l : List (Bytes × Bytes)) (k v : Bytes) : List (Bytes × Bytes) :=
  match l with
  | [] => [(k, v)]
  | (k0, v0) :: rest =>
    if k0 == k then (k, v) :: rest else (k0, v0) :: setKV rest k v

/-- Look a key up in an association list of leaves. -/
def lookupKV (l : List (Bytes × Bytes)) (k : Bytes) : Option Bytes :=
  match l with
  | [] => none
  | (k0, v0) :: rest => if k0 == k then some v0 else lookupKV rest k

/-- Modelled from the spec: a mutable tree with its committed versions
(version number with that version's leaves), the latest committed version
(`0` = none yet) and the staged working leaves. -/
structure VTree where
  committed : List (Int × List (Bytes × Bytes))
  version : Int
  working : List (Bytes × Bytes)
deriving DecidableEq, Repr

/-- A fresh empty tree: no versions, nothing staged. -/
def VTree.empty : VTree := ⟨[], 0, []⟩

/-- Modelled from the spec: stage `Set(key, value)` on the working
leaves. -/
def VTree.set (t : VTree) (k v : Bytes) : VTree :=
  { t with working := setKV t.working k v }

/-- Modelled from the spec: `VersionExists` reports whether a version has
been committed (and not deleted). -/
def VTree.VersionExists (t : VTree) (v : Int) : Bool :=
  t.committed.any (fun p => p.1 == v)

/-- The leaves committed at a version (empty when absent). -/
def VTree.contentAt (t : VTree) (v : Int) : List (Bytes × Bytes) :=
  match t.committed.find? (fun p => p.1 == v) with
  | none => []
  | some p => p.2

/-- Modelled from the spec (3, 4.4): the root hash reported for a
committed tree: the empty tree's conventional root hash is the nil byte
sequence; otherwise a digest of the leaves. -/
def rootHashOf (leaves : List (Bytes × Bytes)) : BytesQ :=
  match leaves with
  | [] => none
  | _ => some (sha256 (leaves.foldr
      (fun p acc => lenPrefixed p.1 ++ lenPrefixed p.2 ++ acc) []))

/-- Modelled from the spec (4.4): `SaveVersion` commits the working
leaves as version `version + 1`, returning the root hash (nil for an
empty tree), the new version and the updated tree; committing over an
already-written version is an error. -/
def VTree.SaveVersion (t : VTree) : Except IavlError (BytesQ × Int × VTree) :=
  let newVersion := t.version + 1
  if t.VersionExists newVersion then
    .error (.other "version already exists")
  else
    .ok (rootHashOf t.working, newVersion,
      { committed := (newVersion, t.working) :: t.committed,
        version := newVersion, working := t.working })

/-- Modelled from the spec (4.3, 4.4): `GetImmutable` yields the
committed read-only view of a version, failing when the version is
absent. -/
def VTree.GetImmutable (t : VTree) (v : Int) :
    Except IavlError (List (Bytes × Bytes)) :=
  if t.VersionExists v then .ok (t.contentAt v) else .error .versionNotFound

/-- Modelled from the spec (4.4): `DeleteVersion` removes a committed
version; it is forbidden for the latest version and fails for a version
that does not exist. -/
def VTree.DeleteVersion (t : VTree) (v : Int) : Except IavlError VTree :=
  if v == t.version then .error (.other "cannot delete latest version")
  else if ¬ t.VersionExists v then .error .versionNotFound
  else .ok { t with committed := t.committed.filter (fun p => p.1 != v) }

/-- Modelled from the spec (4.3, 4.5): `GetVersionedWithProof` reads a
key at a version, returning the value (nil when the version is absent or
the key unset) alongside the error status. -/
def VTree.GetVersionedWithProof (t : VTree) (k : Bytes) (v : Int) :
    Option Bytes × Except IavlError Unit :=
  if t.VersionExists v then (lookupKV (t.contentAt v) k, .ok ())
  else (none, .error .versionNotFound)

/-! ## Claim theorems -/

/-- C1: `KeyExistsProof.Verify` returns `InvalidRoot` whenever the
expected root differs from the proof's root hash; with a matching root it
returns `InvalidInputs` whenever the key or the value is nil; otherwise
it succeeds exactly when the proof's path reconstructs the root from the
leaf built out of the key, the value (hashed with SHA-256 inside the leaf
hash) and the proof's version. -/
theorem keyExistsProof_verify_characterization
    (p : KeyExistsProof) (key value root : BytesQ) :
    (bytesEqual (some p.rootHash) root = false →
      p.Verify key value root = .error .invalidRoot) ∧
    (bytesEqual (some p.rootHash) root = true → (key = none ∨ value = none) →
      p.Verify key value root = .error .invalidInputs) ∧
    (bytesEqual (some p.rootHash) root = true → key ≠ none → value ≠ none →
      (p.Verify key value root = .ok () ↔
        p.path.computeRoot
            (ProofLeafNode.hashOf ⟨toB key, toB value, p.version⟩) =
          toB root)) := by
  refine ⟨?_, ?_, ?_⟩
  · intro h
    simp [KeyExistsProof.Verify, h]
  · intro hr hin
    simp [KeyExistsProof.Verify, hr, hin]
  · intro hr hk hv
    have hin : ¬ (key = none ∨ value = none) := by tauto
    simp only [KeyExistsProof.Verify, hr, not_true_eq_false, if_false, hin,
      PathToKey.verify]
    constructor
    · intro h
      by_cases hc :
          p.path.computeRoot
              (ProofLeafNode.hashOf ⟨toB key, toB value, p.version⟩) =
            toB root
      · exact hc
      · simp [hc] at h
    · intro hc
      simp [hc]

/-- C1 witness: the theorem applied at concrete inputs covering all three
branches (mismatched root, nil value, and a succeeding path check). -/
theorem keyExistsProof_verify_characterization_witness :
    KeyExistsProof.Verify ⟨[1], 0, ⟨[]⟩⟩ (some [7]) (some [8]) (some [2]) =
        .error .invalidRoot ∧
    KeyExistsProof.Verify ⟨[1], 0, ⟨[]⟩⟩ (some [7]) none (some [1]) =
        .error .invalidInputs ∧
    KeyExistsProof.Verify
        ⟨ProofLeafNode.hashOf ⟨[7], [8], 3⟩, 3, ⟨[]⟩⟩ (some [7]) (some [8])
        (some (ProofLeafNode.hashOf ⟨[7], [8], 3⟩)) = .ok () := by
  refine ⟨?_, ?_, ?_⟩
  · exact (keyExistsProof_verify_characterization ⟨[1], 0, ⟨[]⟩⟩
      (some [7]) (some [8]) (some [2])).1 (by decide)
  · exact (keyExistsProof_verify_characterization ⟨[1], 0, ⟨[]⟩⟩
      (some [7]) none (some [1])).2.1 (by decide) (Or.inr rfl)
  · exact (keyExistsProof_verify_characterization
      ⟨ProofLeafNode.hashOf ⟨[7], [8], 3⟩, 3, ⟨[]⟩⟩ (some [7]) (some [8])
      (some (ProofLeafNode.hashOf ⟨[7], [8], 3⟩))).2.2
      (by simp [bytesEqual, toB]) (by simp) (by simp) |>.mpr rfl

/-- C2: `KeyAbsentProof.Verify` returns `InvalidRoot` on a root mismatch;
with a matching root it returns `InvalidInputs` whenever the key is nil
or the value is non-nil; it rejects with `InvalidProof` when both
adjacent-leaf entries are absent; otherwise (at least one side present)
the result is the path check against the root followed by the adjacency
check of the two leaves around the queried key. -/
theorem keyAbsentProof_verify_characterization
    (p : KeyAbsentProof) (key value root : BytesQ) :
    (bytesEqual (some p.rootHash) root = false →
      p.Verify key value root = .error .invalidRoot) ∧
    (bytesEqual (some p.rootHash) root = true → (key = none ∨ value ≠ none) →
      p.Verify key value root = .error .invalidInputs) ∧
    (bytesEqual (some p.rootHash) root = true → key ≠ none → value = none →
      p.left = none → p.right = none →
      p.Verify key value root = .error .invalidProof) ∧
    (bytesEqual (some p.rootHash) root = true → key ≠ none → value = none →
      ¬ (p.left = none ∧ p.right = none) →
      p.Verify key value root =
        match verifyPaths p.left p.right (toB key) (toB key) (toB root) with
        | .error e => .error e
        | .ok _ => verifyKeyAbsence p.left p.right) := by
  refine ⟨?_, ?_, ?_, ?_⟩
  · intro h
    simp [KeyAbsentProof.Verify, h]
  · intro hr hin
    simp [KeyAbsentProof.Verify, hr, hin]
  · intro hr hk hv hl hrr
    have hin : ¬ (key = none ∨ value ≠ none) := by tauto
    simp [KeyAbsentProof.Verify, hr, hin, hl, hrr]
  · intro hr hk hv hside
    have hin : ¬ (key = none ∨ value ≠ none) := by tauto
    simp [KeyAbsentProof.Verify, hr, hin, hside]

/-- C2 witness: the theorem applied at concrete inputs covering the four
branches (root mismatch, non-nil value, both sides absent, one side
present). -/
theorem keyAbsentProof_verify_characterization_witness :
    KeyAbsentProof.Verify ⟨[1], none, none⟩ (some [7]) none (some [2]) =
        .error .invalidRoot ∧
    KeyAbsentProof.Verify ⟨[1], none, none⟩ (some [7]) (some [8]) (some [1]) =
        .error .invalidInputs ∧
    KeyAbsentProof.Verify ⟨[1], none, none⟩ (some [7]) none (some [1]) =
        .error .invalidProof ∧
    KeyAbsentProof.Verify
        ⟨[1], none, some ⟨⟨[]⟩, ⟨[9], [8], 3⟩⟩⟩ (some [7]) none (some [1]) =
      match verifyPaths none (some ⟨⟨[]⟩, ⟨[9], [8], 3⟩⟩) [7] [7] [1] with
      | .error e => .error e
      | .ok _ => verifyKeyAbsence none (some ⟨⟨[]⟩, ⟨[9], [8], 3⟩⟩) := by
  refine ⟨?_, ?_, ?_, ?_⟩
  · exact (keyAbsentProof_verify_characterization ⟨[1], none, none⟩
      (some [7]) none (some [2])).1 (by decide)
  · exact (keyAbsentProof_verify_characterization ⟨[1], none, none⟩
      (some [7]) (some [8]) (some [1])).2.1 (by decide) (Or.inr (by simp))
  · exact (keyAbsentProof_verify_characterization ⟨[1], none, none⟩
      (some [7]) none (some [1])).2.2.1 (by decide) (by simp) rfl rfl rfl
  · exact (keyAbsentProof_verify_characterization
      ⟨[1], none, some ⟨⟨[]⟩, ⟨[9], [8], 3⟩⟩⟩
      (some [7]) none (some [1])).2.2.2 (by decide) (by simp) rfl (by simp)

/-- C3: proof serialization round-trips: `KeyExistsProof.Bytes` begins
with `0x50` and `ReadKeyProof` recovers the same existence proof;
`KeyAbsentProof.Bytes` begins with `0x51` and `ReadKeyProof` recovers the
same absence proof. -/
theorem keyProof_serialization_roundtrip
    (pe : KeyExistsProof) (pa : KeyAbsentProof) :
    pe.Bytes.head? = some 0x50 ∧
    ReadKeyProof pe.Bytes = .ok (.existsP pe) ∧
    pa.Bytes.head? = some 0x51 ∧
    ReadKeyProof pa.Bytes = .ok (.absentP pa) := by
  refine ⟨rfl, ?_, rfl, ?_⟩
  · simp [KeyExistsProof.Bytes, ReadKeyProof, keyExistsMagicNumber,
      readKeyExistsProof_enc]
  · simp [KeyAbsentProof.Bytes, ReadKeyProof, keyAbsentMagicNumber,
      keyExistsMagicNumber, readKeyAbsentProof_enc]

/-- C10: the proof decoder is total on untrusted bytes: empty input is an
error; an unrecognized discriminator is an error; a recognized
discriminator with a malformed payload is a deserialization error; and on
every input the decoder returns either an error or a proof — the
embedding has no panic outcome. -/
theorem readKeyProof_total (d : List Nat) :
    (d = [] → ReadKeyProof d = .error (.other "proof bytes are empty")) ∧
    (∀ b rest, d = b :: rest → b ≠ 0x50 → b ≠ 0x51 →
      ReadKeyProof d = .error (.other "unrecognized proof")) ∧
    (∀ rest, d = 0x50 :: rest → KeyExistsProof.decPayload rest = none →
      ReadKeyProof d = .error (.other "malformed existence proof")) ∧
    (∀ rest, d = 0x51 :: rest → KeyAbsentProof.decPayload rest = none →
      ReadKeyProof d = .error (.other "malformed absence proof")) ∧
    ((∃ e, ReadKeyProof d = .error e) ∨ (∃ v, ReadKeyProof d = .ok v)) := by
  refine ⟨?_, ?_, ?_, ?_, ?_⟩
  · intro h
    subst h
    rfl
  · intro b rest hd hb1 hb2
    subst hd
    simp [ReadKeyProof, keyExistsMagicNumber, keyAbsentMagicNumber, hb1, hb2]
  · intro rest hd hmal
    subst hd
    simp [ReadKeyProof, keyExistsMagicNumber, readKeyExistsProof, hmal]
  · intro rest hd hmal
    subst hd
    simp [ReadKeyProof, keyAbsentMagicNumber, keyExistsMagicNumber,
      readKeyAbsentProof, hmal]
  · cases h : ReadKeyProof d with
    | ok v => exact Or.inr ⟨v, rfl⟩
    | error e => exact Or.inl ⟨e, rfl⟩

/-- C10 witness: the theorem applied at concrete inputs: the empty input,
an unknown discriminator, and the two recognized discriminators with an
empty (malformed) payload. -/
theorem readKeyProof_total_witness :
    ReadKeyProof [] = .error (.other "proof bytes are empty") ∧
    ReadKeyProof [0x42] = .error (.other "unrecognized proof") ∧
    ReadKeyProof [0x50] = .error (.other "malformed existence proof") ∧
    ReadKeyProof [0x51] = .error (.other "malformed absence proof") := by
  refine ⟨?_, ?_, ?_, ?_⟩
  · exact (readKeyProof_total []).1 rfl
  · exact (readKeyProof_total [0x42]).2.1 0x42 [] rfl (by decide) (by decide)
  · exact (readKeyProof_total [0x50]).2.2.1 [] rfl rfl
  · exact (readKeyProof_total [0x51]).2.2.2.1 [] rfl rfl

/-- C4: `MutableTree.Import` fails on a negative version, fails whenever
the target is not empty (a version present in the backing store — saved
through the tree or pre-existing — or staged edits), and succeeds on a
fresh empty tree with a non-negative version. -/
theorem mutableTree_import_empty_target (t : MTree) (v : Int) :
    (v < 0 → ∃ e, t.Import v = .error e) ∧
    (t.dbLatestVersion > 0 → ∃ e, t.Import v = .error e) ∧
    (t.leaves ≠ [] → ∃ e, t.Import v = .error e) ∧
    (0 ≤ v → t.dbLatestVersion = 0 → t.leaves = [] →
      t.Import v = .ok ⟨t, v, false, []⟩) := by
  refine ⟨?_, ?_, ?_, ?_⟩
  · intro h
    simp [MTree.Import, h]
  · intro h
    unfold MTree.Import
    by_cases hv : v < 0
    · simp [hv]
    · simp [hv, h]
  · intro h
    unfold MTree.Import
    by_cases hv : v < 0
    · simp [hv]
    · by_cases hdb : t.dbLatestVersion > 0
      · simp [hv, hdb]
      · simp [hv, hdb, h]
  · intro h0 hdb hl
    have hv : ¬ v < 0 := by omega
    have hdb2 : ¬ t.dbLatestVersion > 0 := by omega
    simp [MTree.Import, hv, hdb2, hl]

/-- C4 witness: the theorem applied at concrete inputs: a negative
version, a store holding a version, staged edits, and a fresh empty
tree. -/
theorem mutableTree_import_empty_target_witness :
    (∃ e, MTree.Import ⟨0, []⟩ (-1) = .error e) ∧
    (∃ e, MTree.Import ⟨3, []⟩ 1 = .error e) ∧
    (∃ e, MTree.Import ⟨0, [([1], [2])]⟩ 1 = .error e) ∧
    MTree.Import ⟨0, []⟩ 1 = .ok ⟨⟨0, []⟩, 1, false, []⟩ := by
  refine ⟨?_, ?_, ?_, ?_⟩
  · exact (mutableTree_import_empty_target ⟨0, []⟩ (-1)).1 (by decide)
  · exact (mutableTree_import_empty_target ⟨3, []⟩ 1).2.1 (by decide)
  · exact (mutableTree_import_empty_target ⟨0, [([1], [2])]⟩ 1).2.2.1
      (by simp)
  · exact (mutableTree_import_empty_target ⟨0, []⟩ 1).2.2.2
      (by decide) rfl rfl

/-- C5: on an open importer, `Add` of a height-0 leaf succeeds exactly
when the key and value are non-nil and the version lies in
`(0, importerVersion]`; `Add` of a nil node is an error. -/
theorem importer_add_leaf_validation (i : Importer) (n : ExportNode) :
    i.closed = false → n.height = 0 →
    ((∃ i2, i.Add (some n) = .ok i2) ↔
      n.key ≠ none ∧ n.value ≠ none ∧ 0 < n.version ∧
        n.version ≤ i.version) ∧
    (∃ e, i.Add none = .error e) := by
  intro hopen hleaf
  refine ⟨?_, ?_⟩
  · by_cases h1 : n.version > i.version <;>
    by_cases hk : n.key = none <;>
    by_cases h2 : n.version ≤ 0 <;>
    by_cases hv : n.value = none <;>
    · simp [Importer.Add, hopen, hleaf, h1, hk, h2, hv]
      try omega
  · simp [Importer.Add, hopen]

/-- C5 witness: the theorem applied at a concrete open importer: a valid
leaf is accepted, and the acceptance conditions evaluate as stated. -/
theorem importer_add_leaf_validation_witness :
    (∃ i2, Importer.Add ⟨⟨0, []⟩, 1, false, []⟩
      (some ⟨some [1], some [2], 1, 0⟩) = .ok i2) ∧
    (∃ e, Importer.Add ⟨⟨0, []⟩, 1, false, []⟩ none = .error e) := by
  have h := importer_add_leaf_validation ⟨⟨0, []⟩, 1, false, []⟩
    ⟨some [1], some [2], 1, 0⟩ rfl rfl
  exact ⟨h.1.mpr (by refine ⟨by simp, by simp, by decide, by decide⟩), h.2⟩

/-- C6: an importer is single-shot: after `Close`, every `Add` and every
`Commit` fails with exactly the `NoImport` error. -/
theorem importer_closed_single_shot (i : Importer) (n : Option ExportNode) :
    i.Close.Add n = .error .noImport ∧
    i.Close.Commit = .error .noImport := by
  constructor
  · simp [Importer.Close, Importer.Add]
  · simp [Importer.Close, Importer.Commit]

/-- C7: closing an importer without committing leaves the target tree
unchanged (a key added via `Add` is not visible), while committing makes
the added leaf visible via `Has`. -/
theorem importer_close_discards_commit_publishes
    (t : MTree) (v : Int) (k val : Bytes) (imp imp2 : Importer)
    (himp : t.Import v = .ok imp)
    (hadd : imp.Add (some ⟨some k, some val, 1, 0⟩) = .ok imp2) :
    (imp2.Close.tree = t ∧ t.Has k = false) ∧
    (∃ t2, imp2.Commit = .ok t2 ∧ t2.Has k = true) := by
  unfold MTree.Import at himp
  split at himp
  · cases himp
  · split at himp
    · cases himp
    · split at himp
      · cases himp
      · rename_i hv hdb hleaves
        rw [not_not] at hleaves
        cases himp
        unfold Importer.Add at hadd
        simp only [if_false] at hadd
        split at hadd
        · cases hadd
        · split at hadd
          · cases hadd
          · split at hadd
            · cases hadd
            · split at hadd
              · cases hadd
              · simp only [if_true] at hadd
                split at hadd
                · cases hadd
                · cases hadd
                  refine ⟨⟨rfl, ?_⟩, ?_⟩
                  · simp [MTree.Has, Importer.Close, hleaves]
                  · refine ⟨⟨v, [(toB (some k), toB (some val))]⟩, ?_, ?_⟩
                    · rfl
                    · simp [MTree.Has, toB]

/-- C7 witness: the theorem applied to a concrete fresh tree, importer
and added leaf. -/
theorem importer_close_discards_commit_publishes_witness :
    (Importer.Close ⟨⟨0, []⟩, 1, false, [⟨0, [([1], [2])]⟩]⟩).tree = ⟨0, []⟩ ∧
    MTree.Has ⟨0, []⟩ [1] = false ∧
    ∃ t2, Importer.Commit ⟨⟨0, []⟩, 1, false, [⟨0, [([1], [2])]⟩]⟩ = .ok t2 ∧
      t2.Has [1] = true := by
  have h := importer_close_discards_commit_publishes ⟨0, []⟩ 1 [1] [2]
    ⟨⟨0, []⟩, 1, false, []⟩ ⟨⟨0, []⟩, 1, false, [⟨0, [([1], [2])]⟩]⟩
    rfl rfl
  exact ⟨h.1.1, h.1.2, h.2⟩

/-- C8: `SaveVersion` on a tree with no entries succeeds, returns
version 1 with the nil root hash convention, and the committed empty
version exists: `VersionExists 1` holds and `GetImmutable 1` succeeds. -/
theorem saveVersion_empty_tree (t : VTree)
    (hw : t.working = []) (hv : t.version = 0) (hc : t.committed = []) :
    ∃ t2, t.SaveVersion = .ok (none, 1, t2) ∧
      t2.VersionExists 1 = true ∧
      ∃ c, t2.GetImmutable 1 = .ok c := by
  refine ⟨⟨[(1, [])], 1, []⟩, ?_, by decide, ⟨[], rfl⟩⟩
  simp [VTree.SaveVersion, VTree.VersionExists, rootHashOf, hw, hv, hc]

/-- C8 witness: the theorem applied to the fresh empty tree. -/
theorem saveVersion_empty_tree_witness :
    ∃ t2, VTree.empty.SaveVersion = .ok (none, 1, t2) ∧
      t2.VersionExists 1 = true ∧
      ∃ c, t2.GetImmutable 1 = .ok c :=
  saveVersion_empty_tree VTree.empty rfl rfl rfl

/-- Filtering out a version key leaves no entry matching it. -/
theorem any_eq_filter_ne (l : List (Int × List (Bytes × Bytes))) (v : Int) :
    (l.filter (fun p => p.1 != v)).any (fun p => p.1 == v) = false := by
  induction l with
  | nil => rfl
  | cons a as ih =>
    by_cases h : a.1 = v
    · simp [List.filter_cons, h, ih]
    · simp [List.filter_cons, h, ih]

/-- C9: a versioned read of a key stored at a non-latest committed
version returns the value before `DeleteVersion` and nil after it. -/
theorem deleteVersion_hides_versioned_read
    (t : VTree) (k val : Bytes) (v : Int)
    (hex : t.VersionExists v = true) (hlatest : v ≠ t.version)
    (hval : lookupKV (t.contentAt v) k = some val) :
    (t.GetVersionedWithProof k v).1 = some val ∧
    ∃ t2, t.DeleteVersion v = .ok t2 ∧
      (t2.GetVersionedWithProof k v).1 = none := by
  refine ⟨?_, ?_⟩
  · simp [VTree.GetVersionedWithProof, hex, hval]
  · refine ⟨{ t with committed := t.committed.filter (fun p => p.1 != v) }, ?_, ?_⟩
    · have hne : (v == t.version) = false := by
        simp [hlatest]
      simp [VTree.DeleteVersion, hne, hex]
    · have hgone : VTree.VersionExists
          { t with committed := t.committed.filter (fun p => p.1 != v) } v =
            false := by
        simp only [VTree.VersionExists]
        exact any_eq_filter_ne t.committed v
      simp [VTree.GetVersionedWithProof, hgone]

/-- C9 witness: the theorem applied to a concrete tree holding the key at
version 1 with latest version 2. -/
theorem deleteVersion_hides_versioned_read_witness :
    (VTree.GetVersionedWithProof
        ⟨[(2, [([1], [2])]), (1, [([1], [2])])], 2, [([1], [2])]⟩ [1] 1).1 =
      some [2] ∧
    ∃ t2, VTree.DeleteVersion
        ⟨[(2, [([1], [2])]), (1, [([1], [2])])], 2, [([1], [2])]⟩ 1 = .ok t2 ∧
      (t2.GetVersionedWithProof [1] 1).1 = none :=
  deleteVersion_hides_versioned_read
    ⟨[(2, [([1], [2])]), (1, [([1], [2])])], 2, [([1], [2])]⟩ [1] [2] 1
    (by decide) (by decide) (by decide)

end Iavl
